import Mathlib

/-!
Verification of the impersonation proxy core (package `impersonator`).

The definitions below are a shallow embedding of the Go source file of the
impersonation proxy.  HTTP headers are modelled as association lists from
header names to lists of values, mirroring Go `http.Header`
(`map[string][]string`).  Machine-level details that the claims do not
touch (network I/O, TLS) are abstracted; every function below mirrors the
control flow of the Go function of the same name.
-/

namespace Impersonator

/-- Models Go `textproto.validHeaderFieldByte`: letters, digits and the
token characters of RFC 7230 as listed in the Go standard library table. -/
def validHeaderFieldByte (c : Char) : Bool :=
  c.isAlphanum ||
    [33, 35, 36, 37, 38, 39, 42, 43, 45, 46, 94, 95, 96, 124, 126].contains c.toNat

/-- The case-mapping pass of Go `textproto.canonicalMIMEHeaderKey`:
uppercase the first letter and every letter following a dash, lowercase
every other letter. -/
def canonicalizeChars : Bool → List Char → List Char
  | _, [] => []
  | upper, c :: cs =>
    (if upper then c.toUpper else c.toLower) :: canonicalizeChars (c == '-') cs

/-- The state of the case-mapping flag of `canonicalizeChars` after
consuming a list of characters: uppercase-next exactly when the last
character consumed was a dash (or no character was consumed yet and the
initial flag holds). -/
def canonFlagAfter (u : Bool) : List Char → Bool
  | [] => u
  | c :: cs => canonFlagAfter (c == '-') cs

/-- Models Go `http.CanonicalHeaderKey` / `textproto.CanonicalMIMEHeaderKey`:
if the key consists only of valid header field bytes it is case-normalised,
otherwise it is returned unchanged. -/
def canonicalMIMEHeaderKey (s : String) : String :=
  if s.data.all validHeaderFieldByte then String.mk (canonicalizeChars true s.data) else s

/-- `charsStartWith s p` is true when the character list `p` is an initial
segment of `s`.  Structural recursion so that proofs can evaluate it. -/
def charsStartWith : List Char → List Char → Bool
  | _, [] => true
  | [], _ :: _ => false
  | c :: cs, p :: ps => c == p && charsStartWith cs ps

/-- Models Go `strings.HasPrefix`. -/
def strStartsWith (s p : String) : Bool :=
  charsStartWith s.data p.data

/-- Models Go `strings.HasSuffix`. -/
def strEndsWith (s p : String) : Bool :=
  charsStartWith s.data.reverse p.data.reverse

/-- Go `http.Header`: a map from header names to lists of values, modelled
as an association list. -/
abbrev Header := List (String × List String)

/-- Association-list lookup on a header map (raw key, no canonicalization),
modelling Go map indexing `h[key]`. -/
def lookupKey (h : Header) (k : String) : Option (List String) :=
  (h.find? (fun p => p.1 == k)).map Prod.snd

/-- Models Go `http.Header.Values(key)`: look up the canonical form of the
key; a missing key yields the empty list (Go returns a nil slice). -/
def headerValues (h : Header) (key : String) : List String :=
  (lookupKey h (canonicalMIMEHeaderKey key)).getD []

/-- Models Go `http.Header.Del(key)`: delete the entry stored under the
canonical form of the key. -/
def headerDel (h : Header) (key : String) : Header :=
  h.filter (fun p => p.1 != canonicalMIMEHeaderKey key)

/-- Go `transport.ImpersonateUserHeader`. -/
def ImpersonateUserHeader : String := "Impersonate-User"

/-- Go `transport.ImpersonateGroupHeader`. -/
def ImpersonateGroupHeader : String := "Impersonate-Group"

/-- Go `transport.ImpersonateUserExtraHeaderPrefix`. -/
def ImpersonateUserExtraHeaderPrefix : String := "Impersonate-Extra-"

/-- Models Go `ensureNoImpersonationHeaders`: scan the header map and
return an error for the first key whose canonical form begins with
`Impersonate`.  `none` means no impersonation header is present. -/
def ensureNoImpersonationHeaders (h : Header) : Option String :=
  (h.find? (fun p => strStartsWith (canonicalMIMEHeaderKey p.1) "Impersonate")).map
    (fun p => canonicalMIMEHeaderKey p.1 ++ " header already exists")

/-- The list of header names deleted by `deleteKnownImpersonationHeaders`:
the two fixed impersonation headers plus every raw key of the map that
begins with the extra-header prefix, exactly as the Go loop collects them. -/
def impersonationHeadersToDelete (h : Header) : List String :=
  [ImpersonateUserHeader, ImpersonateGroupHeader] ++
    (h.map Prod.fst).filter (fun k => strStartsWith k ImpersonateUserExtraHeaderPrefix)

/-- Models the header-map effect of Go `deleteKnownImpersonationHeaders`:
when `ensureNoImpersonationHeaders` reports a leftover impersonation
header, delete the known impersonation headers (via `Header.Del`, hence by
canonical name); otherwise leave the map untouched.  The Go function
performs these deletions on a clone of the request; the aliasing aspect is
modelled separately by the heap semantics further below. -/
def deleteKnownImpersonationHeaders (h : Header) : Header :=
  if (ensureNoImpersonationHeaders h).isSome then
    (impersonationHeadersToDelete h).foldl headerDel h
  else h

/-- Models Go `user.Info` (the authenticated user in the request context):
name, UID, groups and the extras map. -/
structure UserInfo where
  name : String
  uid : String
  groups : List String
  extra : List (String × List String)
deriving DecidableEq

/-- Models `authenticationv1.UserInfo` (the user recorded in the audit
event and produced by token review): username, UID, groups, extras. -/
structure UserInfoV1 where
  username : String
  uid : String
  groups : List String
  extra : List (String × List String)
deriving DecidableEq

/-- Models the slice of `auditinternal.Event` the proxy reads: the
original user and the optional impersonated user. -/
structure AuditEvent where
  user : UserInfoV1
  impersonatedUser : Option UserInfoV1
deriving DecidableEq

/-- Models Go `transport.ImpersonationConfig`: user name, groups and the
extras map sent as impersonation headers. -/
structure ImpersonationConfig where
  userName : String
  groups : List String
  extra : List (String × List String)
deriving DecidableEq

/-- The round trippers the proxy builds.  `base` is one of the four
transports pinned at construction by `getTransportForProtocol`
(protocol times anonymous or credentialed); `impersonating` models
`transport.NewImpersonatingRoundTripper`; `bearerAuth` models
`transport.NewBearerAuthRoundTripper`. -/
inductive RoundTripper where
  | base (protocol : String) (anonymous : Bool)
  | impersonating (cfg : ImpersonationConfig) (delegate : RoundTripper)
  | bearerAuth (token : String) (delegate : RoundTripper)
deriving DecidableEq

/-- Models `authenticator.Request` as used by `tokenReview`: the fake
request carries only the bearer token, so the authenticator is a function
of the token.  `Except.error e` models a non-nil error from
`AuthenticateRequest`, `Except.ok none` models `ok == false`, and
`Except.ok (some u)` models a successful authentication as `u`. -/
def Authenticator := String → Except String (Option UserInfo)

def toHexDigit (n : Nat) : Char :=
  if n < 10 then Char.ofNat (48 + n) else Char.ofNat (87 + n)

/-- Models the escaping Go `json.Marshal` applies to one character of a
string value: quote, backslash, the usual control escapes, the HTML-unsafe
characters, other control characters as lowercase `u00XX` escapes, and the
two line separators. -/
def jsonEscapeChar (c : Char) : String :=
  if c == '"' then "\\\""
  else if c == '\\' then "\\\\"
  else if c == '\n' then "\\n"
  else if c == '\r' then "\\r"
  else if c == '\t' then "\\t"
  else if c == '<' then "\\u003c"
  else if c == '>' then "\\u003e"
  else if c == '&' then "\\u0026"
  else if c.toNat < 32 then
    "\\u00" ++ String.mk [toHexDigit (c.toNat / 16), toHexDigit (c.toNat % 16)]
  else if c.toNat == 8232 then "\\u2028"
  else if c.toNat == 8233 then "\\u2029"
  else String.mk [c]

def jsonQuote (s : String) : String :=
  "\"" ++ String.join (s.data.map jsonEscapeChar) ++ "\""

def jsonStringArray (xs : List String) : String :=
  "[" ++ String.intercalate "," (xs.map jsonQuote) ++ "]"

def insertPairSorted (p : String × List String) :
    List (String × List String) → List (String × List String)
  | [] => [p]
  | q :: qs => if p.1 < q.1 then p :: q :: qs else q :: insertPairSorted p qs

/-- Go `json.Marshal` writes map entries in ascending key order. -/
def sortPairsByKey (l : List (String × List String)) : List (String × List String) :=
  l.foldr insertPairSorted []

/-- Models `json.Marshal` on `authenticationv1.UserInfo`: the four fields
in struct order, each with an `omitempty` JSON tag, the extras map with
keys sorted. -/
def jsonMarshalUserInfoV1 (u : UserInfoV1) : String :=
  let fields :=
    (if u.username == "" then [] else ["\"username\":" ++ jsonQuote u.username]) ++
    (if u.uid == "" then [] else ["\"uid\":" ++ jsonQuote u.uid]) ++
    (if u.groups.isEmpty then [] else ["\"groups\":" ++ jsonStringArray u.groups]) ++
    (if u.extra.isEmpty then [] else
      ["\"extra\":\x7b" ++
        String.intercalate ","
          ((sortPairsByKey u.extra).map (fun p => jsonQuote p.1 ++ ":" ++ jsonStringArray p.2)) ++
        "\x7d"])
  "\x7b" ++ String.intercalate "," fields ++ "\x7d"

/-- The constant `reservedImpersonationProxySuffix` of `buildExtra`. -/
def reservedImpersonationProxySuffix : String := ".impersonation-proxy.concierge.pinniped.dev"

def extraKeyAllowedChar (c : Char) : Bool :=
  c.isLower || c.isDigit || c == '/' || c == '-' || c == '.' || c == '_'

/-- Models `extraKeyRegexp.MatchString` for the anchored pattern
`[a-z0-9/\-._]+` between start and end anchors: the key is nonempty and
every character is in the class. -/
def extraKeyRegexpMatch (s : String) : Bool :=
  s.length != 0 && s.data.all extraKeyAllowedChar

/-- Models Go `buildExtra`: reject any extra key that fails the regex or
carries the reserved suffix; without nested impersonation return the input
map unchanged; with nested impersonation return a fresh map that adds the
original-user-info entry holding the JSON encoding of the audit user. -/
def buildExtra (extra : List (String × List String)) (ae : AuditEvent) :
    Except String (List (String × List String)) :=
  match extra.find? (fun p =>
      !extraKeyRegexpMatch p.1 || strEndsWith p.1 reservedImpersonationProxySuffix) with
  | some p =>
    if !extraKeyRegexpMatch p.1 then Except.error ("disallowed extra key seen: " ++ p.1)
    else Except.error ("disallowed extra key with reserved prefix seen: " ++ p.1)
  | none =>
    match ae.impersonatedUser with
    | none => Except.ok extra
    | some _ =>
      Except.ok (extra ++ [("original-user-info" ++ reservedImpersonationProxySuffix,
        [jsonMarshalUserInfoV1 ae.user])])

/-- The key under which `buildExtra` records the original user during
nested impersonation. -/
def originalUserInfoKey : String :=
  "original-user-info" ++ reservedImpersonationProxySuffix

/-- Models Go `canImpersonateFully`: true exactly when the user UID has
length zero (the deliberately expandable structure of the Go function is
kept). -/
def canImpersonateFully (userInfo : UserInfo) : Bool :=
  if userInfo.uid.length == 0 then true else false

/-- Models Go `standardImpersonationRoundTripper`: build the outgoing
extras, then wrap the delegate in an impersonating round tripper carrying
name, groups and extras. -/
def standardImpersonationRoundTripper (userInfo : UserInfo) (ae : AuditEvent)
    (delegate : RoundTripper) : Except String RoundTripper :=
  match buildExtra userInfo.extra ae with
  | Except.error e => Except.error e
  | Except.ok extra =>
    Except.ok (RoundTripper.impersonating ⟨userInfo.name, userInfo.groups, extra⟩ delegate)

/-- The conversion `tokenReview` performs from the authenticator response
user (`user.Info`) into `authenticationv1.UserInfo`, copying the extras
map. -/
def tokenUserOf (u : UserInfo) : UserInfoV1 :=
  ⟨u.name, u.uid, u.groups, u.extra⟩

/-- Models Go `tokenReview`: an empty token is rejected; otherwise the
authenticator is consulted with a fake request carrying only the token,
and its response user is converted into `authenticationv1.UserInfo`. -/
def tokenReview (token : String) (auth : Authenticator) : Except String UserInfoV1 :=
  if token.length == 0 then Except.error "no token on request"
  else
    match auth token with
    | Except.error e => Except.error e
    | Except.ok none => Except.error "token failed to authenticate"
    | Except.ok (some u) => Except.ok (tokenUserOf u)

/-- Extras-map equality by key lookup in both directions (Go maps are
unordered). -/
def extraMapEq (a b : List (String × List String)) : Bool :=
  ((a.map Prod.fst) ++ (b.map Prod.fst)).all (fun k => lookupKey a k == lookupKey b k)

/-- Models `apiequality.Semantic.DeepEqual` on `authenticationv1.UserInfo`:
usernames, UIDs and group lists must agree, and the extras maps must agree
as maps.  The Go distinction between a nil map or slice and an empty one
is not modelled. -/
def userInfoV1DeepEqual (a b : UserInfoV1) : Bool :=
  a.username == b.username && a.uid == b.uid && a.groups == b.groups &&
    extraMapEq a.extra b.extra

/-- Models Go `tokenPassthroughRoundTripper`: reject nested impersonation
outright, run the token review, reject on user mismatch, and otherwise
wrap the anonymous delegate in a bearer-auth round tripper carrying the
token. -/
def tokenPassthroughRoundTripper (delegateAnonymous : RoundTripper) (ae : AuditEvent)
    (token : String) (auth : Authenticator) : Except String RoundTripper :=
  match ae.impersonatedUser with
  | some _ => Except.error "unable to impersonate uid"
  | none =>
    match tokenReview token auth with
    | Except.error e => Except.error e
    | Except.ok tokenUser =>
      if !userInfoV1DeepEqual ae.user tokenUser then
        Except.error "token authenticated as a different user"
      else
        Except.ok (RoundTripper.bearerAuth token delegateAnonymous)

/-- Models Go `getTransportForUser`: the standard impersonation path over
the credentialed delegate when full impersonation is possible, the token
passthrough path over the anonymous delegate otherwise. -/
def getTransportForUser (userInfo : UserInfo) (delegate delegateAnonymous : RoundTripper)
    (ae : AuditEvent) (token : String) (auth : Authenticator) : Except String RoundTripper :=
  if canImpersonateFully userInfo then
    standardImpersonationRoundTripper userInfo ae delegate
  else
    tokenPassthroughRoundTripper delegateAnonymous ae token auth

/-- Models `authorizer.Decision`. -/
inductive Decision where
  | deny
  | allow
  | noOpinion
deriving DecidableEq

/-- The slice of `authorizer.Attributes` the custom authorizer reads. -/
structure Attributes where
  verb : String
deriving DecidableEq

/-- Models the `authorizerFunc` installed as the
`nestedImpersonationAuthorizer`: deny the empty verb, allow the standard
request verbs (deferring to the upstream), and delegate every other verb
to the standard upstream authorizer. -/
def nestedImpersonationAuthorizer
    (delegatingAuthorizer : Attributes → Decision × String × Option String)
    (a : Attributes) : Decision × String × Option String :=
  match a.verb with
  | "" => (Decision.deny, "invalid verb", none)
  | "create" | "update" | "delete" | "deletecollection" | "get" | "list"
  | "watch" | "patch" | "proxy" =>
    (Decision.allow, "deferring standard verb authorization to kube API server", none)
  | _ => delegatingAuthorizer a

/-- The loopback client configuration fields the sanity checks read. -/
structure LoopbackClientConfig where
  bearerToken : String
  bearerTokenFile : String
deriving DecidableEq

/-- The slice of the prepared server that the post-prepare sanity checks
read.  The hosting framework (Complete and PrepareRun) is external to
this repository, so its result is taken as an input; the Go code compares
the authorizer by object identity, modelled here as a numeric identity. -/
structure PreparedServer where
  authorizerId : Nat
  loopbackClientConfig : LoopbackClientConfig
deriving DecidableEq

/-- Models the two post-prepare sanity checks at the end of `newInternal`:
fail unless the prepared server still uses the installed custom authorizer
and the loopback config has no bearer token but does have a bearer token
file.  `Except.ok` is returned exactly when `newInternal` would go on to
return the start function. -/
def newInternalSanityChecks (nestedImpersonationAuthorizerId : Nat)
    (preparedRun : PreparedServer) : Except String Unit :=
  if preparedRun.authorizerId != nestedImpersonationAuthorizerId then
    Except.error "invalid mutation of impersonation authorizer detected"
  else if preparedRun.loopbackClientConfig.bearerToken.length != 0 ||
      preparedRun.loopbackClientConfig.bearerTokenFile.length == 0 then
    Except.error "invalid impersonator loopback rest config has wrong bearer token semantics"
  else Except.ok ()

/-- The four transports pinned by `newImpersonationReverseProxyFunc`. -/
def http1RoundTripper : RoundTripper := RoundTripper.base "http/1.1" false

def http1RoundTripperAnonymous : RoundTripper := RoundTripper.base "http/1.1" true

def http2RoundTripper : RoundTripper := RoundTripper.base "h2" false

def http2RoundTripperAnonymous : RoundTripper := RoundTripper.base "h2" true

/-- The state of an inbound request as seen by the terminal proxy handler:
its header map, the user info and audit event the standard chain placed in
the request context, the stashed bearer token (empty when absent, as
`tokenFrom` returns), and whether the request is a protocol upgrade. -/
structure Request where
  headers : Header
  ctxUser : Option UserInfo
  ctxAuditEvent : Option AuditEvent
  ctxToken : String
  isUpgrade : Bool

/-- The observable outcome of the terminal proxy handler: an internal
error response, or a forward to the upstream through a chosen round
tripper with the (possibly X-Forwarded-For-scrubbed) headers. -/
inductive ProxyResult where
  | internalError (msg : String)
  | forward (rt : RoundTripper) (headers : Header)
deriving DecidableEq

/-- Models the handler returned by `newImpersonationReverseProxyFunc`: the
four entry guards in source order, protocol-based selection of the base
round trippers, transport construction via `getTransportForUser`, removal
of a client-supplied X-Forwarded-For header, and the hand-off to the
reverse proxy. -/
def impersonationProxyHandler (auth : Authenticator) (r : Request) : ProxyResult :=
  if (headerValues r.headers "Authorization").length != 0 then
    ProxyResult.internalError "invalid authorization header"
  else if (ensureNoImpersonationHeaders r.headers).isSome then
    ProxyResult.internalError "invalid impersonation"
  else
    match r.ctxUser with
    | none => ProxyResult.internalError "invalid user"
    | some userInfo =>
      match r.ctxAuditEvent with
      | none => ProxyResult.internalError "invalid audit event"
      | some ae =>
        let token := r.ctxToken
        let baseRT := if r.isUpgrade then http1RoundTripper else http2RoundTripper
        let baseRTAnonymous :=
          if r.isUpgrade then http1RoundTripperAnonymous else http2RoundTripperAnonymous
        match getTransportForUser userInfo baseRT baseRTAnonymous ae token auth with
        | Except.error _ =>
          ProxyResult.internalError "unimplemented functionality - unable to act as current user"
        | Except.ok rt =>
          let outHeaders :=
            if 0 < (headerValues r.headers "X-Forwarded-For").length then
              headerDel r.headers "X-Forwarded-For"
            else r.headers
          ProxyResult.forward rt outHeaders

/-- A heap of request objects for the aliasing claims.  Go handlers may
clone a request before deleting headers; this semantics makes object
identity explicit: `store` holds the header map of every request object
allocated so far and `cur` is the reference the handler currently works
with.  The inbound request is the object at index 0. -/
structure ReqHeap where
  store : List Header
  cur : Nat

/-- Models `r.Clone` / `utilnet.CloneRequest`: allocate a fresh request
object with a copy of the current header map and switch to it. -/
def cloneCurrentRequest (s : ReqHeap) : ReqHeap :=
  ⟨s.store ++ [s.store.getD s.cur []], s.store.length⟩

/-- Models `r.Header.Del(key)` executed on the current request object. -/
def delHeaderOnCurrent (s : ReqHeap) (key : String) : ReqHeap :=
  ⟨s.store.set s.cur (headerDel (s.store.getD s.cur []) key), s.cur⟩

/-- Models Go `deleteKnownImpersonationHeaders` at the object level: when
an impersonation header remains, the request is cloned and the deletions
run on the clone; otherwise the request is passed through untouched. -/
def deleteKnownImpersonationHeadersOnHeap (s : ReqHeap) : ReqHeap :=
  if (ensureNoImpersonationHeaders (s.store.getD s.cur [])).isSome then
    (impersonationHeadersToDelete
        ((cloneCurrentRequest s).store.getD (cloneCurrentRequest s).cur [])).foldl
      delHeaderOnCurrent (cloneCurrentRequest s)
  else s

/-- Models the X-Forwarded-For removal inside the proxy handler at the
object level: when the header is present, clone the request and delete the
header on the clone. -/
def removeXForwardedForOnHeap (s : ReqHeap) : ReqHeap :=
  if 0 < (headerValues (s.store.getD s.cur []) "X-Forwarded-For").length then
    delHeaderOnCurrent (cloneCurrentRequest s) "X-Forwarded-For"
  else s

/-- Folding `headerDel` over a list of keys is the same as one filter that
keeps exactly the entries whose key differs from every canonicalised key
of the list. -/
theorem foldl_headerDel (ks : List String) (h : Header) :
    ks.foldl headerDel h =
      h.filter (fun p => ks.all (fun k => p.1 != canonicalMIMEHeaderKey k)) := by
  induction ks generalizing h with
  | nil =>
    simp [List.foldl, List.filter_eq_self]
  | cons k ks ih =>
    show ks.foldl headerDel (headerDel h k) = _
    rw [ih, headerDel, List.filter_filter]
    apply List.filter_congr
    intro p _
    simp only [List.all_cons, Bool.and_comm]

theorem mem_filter_keys {h : Header} {p : String × List String}
    {q : String × List String → Bool} (hp : p ∈ h.filter q) : p ∈ h :=
  (List.mem_filter.mp hp).1

/-- Claim C7: the impersonation-header scrub is idempotent; for every
request, applying `deleteKnownImpersonationHeaders` twice yields a request
whose header map equals the one obtained by applying it once. -/
theorem claim_C7_scrub_idempotent (h : Header) :
    deleteKnownImpersonationHeaders (deleteKnownImpersonationHeaders h) =
      deleteKnownImpersonationHeaders h := by
  by_cases htrig : (ensureNoImpersonationHeaders h).isSome
  · have hscrub : deleteKnownImpersonationHeaders h =
        h.filter (fun p =>
          (impersonationHeadersToDelete h).all (fun k => p.1 != canonicalMIMEHeaderKey k)) := by
      rw [deleteKnownImpersonationHeaders, if_pos htrig, foldl_headerDel]
    by_cases htrig2 : (ensureNoImpersonationHeaders (deleteKnownImpersonationHeaders h)).isSome
    · rw [deleteKnownImpersonationHeaders, if_pos htrig2, foldl_headerDel,
        List.filter_eq_self]
      intro p hp
      rw [hscrub] at hp
      have hmem : p ∈ h := mem_filter_keys hp
      have hkeep := (List.mem_filter.mp hp).2
      rw [List.all_eq_true] at hkeep ⊢
      intro k hk
      rw [impersonationHeadersToDelete] at hk
      rcases List.mem_append.mp hk with hfixed | hextra
      · exact hkeep k (by
          rw [impersonationHeadersToDelete]
          exact List.mem_append.mpr (Or.inl hfixed))
      · -- k is a key of the scrubbed map with the extra-header prefix;
        -- it is then also a key of the original map, so the first pass
        -- already removed everything stored under its canonical name.
        rcases List.mem_filter.mp hextra with ⟨hkmem, hkpre⟩
        rcases List.mem_map.mp hkmem with ⟨q, hq, hq1⟩
        have hqmem : q ∈ h := mem_filter_keys (hscrub ▸ hq)
        refine hkeep k ?_
        rw [impersonationHeadersToDelete]
        refine List.mem_append.mpr (Or.inr ?_)
        exact List.mem_filter.mpr ⟨List.mem_map.mpr ⟨q, hqmem, hq1⟩, hkpre⟩
    · rw [deleteKnownImpersonationHeaders, if_neg htrig2]
  · have hid : deleteKnownImpersonationHeaders h = h := by
      rw [deleteKnownImpersonationHeaders, if_neg htrig]
    rw [hid]
    exact hid

theorem getD_set_ne {α : Type} : ∀ (l : List α) (i j : Nat), i ≠ j → ∀ (a d : α),
    (l.set i a).getD j d = l.getD j d
  | [], _, _, _, _, _ => rfl
  | _ :: _, 0, 0, h, _, _ => absurd rfl h
  | _ :: _, 0, _ + 1, _, _, _ => rfl
  | _ :: _, _ + 1, 0, _, _, _ => rfl
  | _ :: xs, i + 1, j + 1, h, a, d =>
    getD_set_ne xs i j (fun hij => h (by rw [hij])) a d

/-- Folding header deletions over the current object leaves every other
object, the current reference and the store size unchanged. -/
theorem foldl_delHeaderOnCurrent_frame (ks : List String) (s : ReqHeap) :
    (ks.foldl delHeaderOnCurrent s).cur = s.cur ∧
      (ks.foldl delHeaderOnCurrent s).store.length = s.store.length ∧
      ∀ i, i ≠ s.cur →
        (ks.foldl delHeaderOnCurrent s).store.getD i [] = s.store.getD i [] := by
  induction ks generalizing s with
  | nil => exact ⟨rfl, rfl, fun _ _ => rfl⟩
  | cons k ks ih =>
    have step : ks.foldl delHeaderOnCurrent (delHeaderOnCurrent s k) =
        (k :: ks).foldl delHeaderOnCurrent s := rfl
    obtain ⟨hcur, hlen, hframe⟩ := ih (delHeaderOnCurrent s k)
    rw [step] at hcur hlen hframe
    refine ⟨hcur, by rw [hlen]; exact List.length_set .., ?_⟩
    intro i hi
    rw [hframe i hi]
    exact getD_set_ne _ _ _ (fun hc => hi hc.symm) _ _

theorem strLength_eq_zero {s : String} : s.length = 0 ↔ s = "" := by
  constructor
  · intro h
    cases s with
    | mk data =>
      have hlen : data.length = 0 := h
      have hd : data = [] := List.length_eq_zero.mp hlen
      rw [hd]
  · intro h
    rw [h]
    rfl

theorem canImpersonateFully_eq_uid_beq (u : UserInfo) :
    canImpersonateFully u = (u.uid == "") := by
  have hlen : (u.uid.length == 0) = (u.uid == "") := by
    by_cases h : u.uid = ""
    · rw [h]
      decide
    · have h1 : u.uid.length ≠ 0 := fun hc => h (strLength_eq_zero.mp hc)
      have e1 : (u.uid.length == 0) = false := beq_eq_false_iff_ne.mpr h1
      have e2 : (u.uid == "") = false := beq_eq_false_iff_ne.mpr h
      rw [e1, e2]
  rw [canImpersonateFully, hlen]
  cases hb : (u.uid == "") <;> simp [hb]

/-- Claim C1: `getTransportForUser` takes the full-impersonation path over
the credentialed delegate if and only if the final user has an empty UID,
and the token-passthrough path over the anonymous delegate if and only if
the UID is non-empty; equivalently `canImpersonateFully` returns true
exactly when the UID is empty. -/
theorem claim_C1_full_impersonation_iff_empty_uid
    (u : UserInfo) (delegate delegateAnonymous : RoundTripper) (ae : AuditEvent)
    (token : String) (auth : Authenticator) :
    canImpersonateFully u = (u.uid == "") ∧
    (u.uid = "" →
      getTransportForUser u delegate delegateAnonymous ae token auth =
        standardImpersonationRoundTripper u ae delegate) ∧
    (u.uid ≠ "" →
      getTransportForUser u delegate delegateAnonymous ae token auth =
        tokenPassthroughRoundTripper delegateAnonymous ae token auth) := by
  refine ⟨canImpersonateFully_eq_uid_beq u, ?_, ?_⟩
  · intro h
    have hc : canImpersonateFully u = true := by
      rw [canImpersonateFully_eq_uid_beq, h]
      rfl
    rw [getTransportForUser, if_pos hc]
  · intro h
    have hc : canImpersonateFully u = false := by
      rw [canImpersonateFully_eq_uid_beq]
      exact beq_eq_false_iff_ne.mpr h
    rw [getTransportForUser, if_neg (by rw [hc]; exact Bool.false_ne_true)]

theorem claim_C1_witness :
    getTransportForUser ⟨"alice", "", ["devs"], []⟩ http2RoundTripper
        http2RoundTripperAnonymous ⟨⟨"alice", "", ["devs"], []⟩, none⟩ ""
        (fun _ => Except.ok none) =
      standardImpersonationRoundTripper ⟨"alice", "", ["devs"], []⟩
        ⟨⟨"alice", "", ["devs"], []⟩, none⟩ http2RoundTripper ∧
    getTransportForUser ⟨"carol", "U1", [], []⟩ http2RoundTripper
        http2RoundTripperAnonymous ⟨⟨"carol", "U1", [], []⟩, none⟩ "T"
        (fun _ => Except.ok none) =
      tokenPassthroughRoundTripper http2RoundTripperAnonymous
        ⟨⟨"carol", "U1", [], []⟩, none⟩ "T" (fun _ => Except.ok none) :=
  ⟨(claim_C1_full_impersonation_iff_empty_uid ⟨"alice", "", ["devs"], []⟩
      http2RoundTripper http2RoundTripperAnonymous ⟨⟨"alice", "", ["devs"], []⟩, none⟩
      "" (fun _ => Except.ok none)).2.1 rfl,
   (claim_C1_full_impersonation_iff_empty_uid ⟨"carol", "U1", [], []⟩
      http2RoundTripper http2RoundTripperAnonymous ⟨⟨"carol", "U1", [], []⟩, none⟩
      "T" (fun _ => Except.ok none)).2.2 (by decide)⟩

/-- Claim C4: the custom nested-impersonation authorizer denies the empty
verb with reason invalid verb, allows the nine standard request verbs
(deferring to the upstream), and returns the delegated standard upstream
authorizer decision for every other verb, including impersonate. -/
theorem claim_C4_nested_impersonation_authorizer_policy
    (delegated : Attributes → Decision × String × Option String) (a : Attributes) :
    (a.verb = "" → nestedImpersonationAuthorizer delegated a =
      (Decision.deny, "invalid verb", none)) ∧
    (a.verb ∈ (["create", "update", "delete", "deletecollection", "get", "list",
        "watch", "patch", "proxy"] : List String) →
      nestedImpersonationAuthorizer delegated a =
        (Decision.allow, "deferring standard verb authorization to kube API server", none)) ∧
    (a.verb ≠ "" →
      a.verb ∉ (["create", "update", "delete", "deletecollection", "get", "list",
        "watch", "patch", "proxy"] : List String) →
      nestedImpersonationAuthorizer delegated a = delegated a) := by
  obtain ⟨v⟩ := a
  refine ⟨?_, ?_, ?_⟩
  · intro h
    subst h
    rfl
  · intro h
    simp only [List.mem_cons, List.not_mem_nil, or_false] at h
    rcases h with rfl | rfl | rfl | rfl | rfl | rfl | rfl | rfl | rfl <;> rfl
  · intro h1 h2
    simp only [List.mem_cons, List.not_mem_nil, or_false, not_or] at h2
    obtain ⟨n1, n2, n3, n4, n5, n6, n7, n8, n9⟩ := h2
    show nestedImpersonationAuthorizer delegated ⟨v⟩ = delegated ⟨v⟩
    rw [nestedImpersonationAuthorizer]
    split
    all_goals first
      | rfl
      | (rename_i heq
         first
           | exact absurd heq h1
           | exact absurd heq n1 | exact absurd heq n2 | exact absurd heq n3
           | exact absurd heq n4 | exact absurd heq n5 | exact absurd heq n6
           | exact absurd heq n7 | exact absurd heq n8 | exact absurd heq n9)

theorem claim_C4_witness :
    nestedImpersonationAuthorizer (fun _ => (Decision.noOpinion, "delegated", none)) ⟨""⟩ =
      (Decision.deny, "invalid verb", none) ∧
    nestedImpersonationAuthorizer (fun _ => (Decision.noOpinion, "delegated", none)) ⟨"get"⟩ =
      (Decision.allow, "deferring standard verb authorization to kube API server", none) ∧
    nestedImpersonationAuthorizer (fun _ => (Decision.noOpinion, "delegated", none))
        ⟨"impersonate"⟩ =
      (fun (_ : Attributes) => (Decision.noOpinion, "delegated", none)) ⟨"impersonate"⟩ :=
  ⟨(claim_C4_nested_impersonation_authorizer_policy
      (fun _ => (Decision.noOpinion, "delegated", none)) ⟨""⟩).1 rfl,
   (claim_C4_nested_impersonation_authorizer_policy
      (fun _ => (Decision.noOpinion, "delegated", none)) ⟨"get"⟩).2.1 (by decide),
   (claim_C4_nested_impersonation_authorizer_policy
      (fun _ => (Decision.noOpinion, "delegated", none)) ⟨"impersonate"⟩).2.2
      (by decide) (by decide)⟩

/-- Claim C6: after the prepare phase, construction succeeds (so New can
return the start function) if and only if the prepared server still uses
the installed custom authorizer and the loopback client configuration has
an empty bearer token together with a non-empty bearer token file; in
every other case an error is returned. -/
theorem claim_C6_post_prepare_sanity (authId : Nat) (pr : PreparedServer) :
    (newInternalSanityChecks authId pr = Except.ok () ↔
      (pr.authorizerId = authId ∧
        pr.loopbackClientConfig.bearerToken = "" ∧
        pr.loopbackClientConfig.bearerTokenFile ≠ "")) ∧
    (¬(pr.authorizerId = authId ∧
        pr.loopbackClientConfig.bearerToken = "" ∧
        pr.loopbackClientConfig.bearerTokenFile ≠ "") →
      ∃ e, newInternalSanityChecks authId pr = Except.error e) := by
  by_cases h1 : pr.authorizerId = authId
  · have e1 : (pr.authorizerId != authId) = false := by
      simp [h1]
    by_cases h2 : pr.loopbackClientConfig.bearerToken = ""
    · have e2 : (pr.loopbackClientConfig.bearerToken.length != 0) = false := by
        simp [h2]
      by_cases h3 : pr.loopbackClientConfig.bearerTokenFile = ""
      · have e3 : (pr.loopbackClientConfig.bearerTokenFile.length == 0) = true := by
          simp [h3]
        have hres : newInternalSanityChecks authId pr =
            Except.error
              "invalid impersonator loopback rest config has wrong bearer token semantics" := by
          simp [newInternalSanityChecks, e1, e2, e3]
        refine ⟨?_, fun _ => ⟨_, hres⟩⟩
        rw [hres]
        exact iff_of_false (by simp) (fun hcj => hcj.2.2 h3)
      · have e3 : (pr.loopbackClientConfig.bearerTokenFile.length == 0) = false :=
          beq_eq_false_iff_ne.mpr (fun hc => h3 (strLength_eq_zero.mp hc))
        have hres : newInternalSanityChecks authId pr = Except.ok () := by
          simp [newInternalSanityChecks, e1, e2, e3]
        refine ⟨?_, fun hc => absurd ⟨h1, h2, h3⟩ hc⟩
        rw [hres]
        exact iff_of_true rfl ⟨h1, h2, h3⟩
    · have e2 : (pr.loopbackClientConfig.bearerToken.length != 0) = true := by
        have hne : pr.loopbackClientConfig.bearerToken.length ≠ 0 :=
          fun hc => h2 (strLength_eq_zero.mp hc)
        simp [hne]
      have hres : newInternalSanityChecks authId pr =
          Except.error
            "invalid impersonator loopback rest config has wrong bearer token semantics" := by
        simp [newInternalSanityChecks, e1, e2]
      refine ⟨?_, fun _ => ⟨_, hres⟩⟩
      rw [hres]
      exact iff_of_false (by simp) (fun hcj => h2 hcj.2.1)
  · have e1 : (pr.authorizerId != authId) = true := by
      simp [h1]
    have hres : newInternalSanityChecks authId pr =
        Except.error "invalid mutation of impersonation authorizer detected" := by
      simp [newInternalSanityChecks, e1]
    refine ⟨?_, fun _ => ⟨_, hres⟩⟩
    rw [hres]
    exact iff_of_false (by simp) (fun hcj => h1 hcj.1)

theorem claim_C6_witness :
    (newInternalSanityChecks 7 ⟨7, ⟨"", "token-file"⟩⟩ = Except.ok ()) ∧
    (∃ e, newInternalSanityChecks 7 ⟨8, ⟨"", "token-file"⟩⟩ = Except.error e) :=
  ⟨(claim_C6_post_prepare_sanity 7 ⟨7, ⟨"", "token-file"⟩⟩).1.mpr
      ⟨rfl, rfl, by decide⟩,
   (claim_C6_post_prepare_sanity 7 ⟨8, ⟨"", "token-file"⟩⟩).2 (by decide)⟩

/-- Claim C8: `buildExtra` rejects an extras map exactly when some key
fails the conservative key regex (so in particular the empty key, keys
with uppercase letters, and keys containing a space, percent or colon) or
ends in the reserved impersonation-proxy suffix; maps whose keys all match
the regex and lack the suffix are not rejected. -/
theorem claim_C8_extra_key_validation (extra : List (String × List String)) (ae : AuditEvent) :
    ((∃ e, buildExtra extra ae = Except.error e) ↔
      ∃ k, k ∈ extra.map Prod.fst ∧
        (extraKeyRegexpMatch k = false ∨
          strEndsWith k reservedImpersonationProxySuffix = true)) ∧
    extraKeyRegexpMatch "" = false ∧
    extraKeyRegexpMatch "Mixed-Case" = false ∧
    extraKeyRegexpMatch "a b" = false ∧
    extraKeyRegexpMatch "a%" = false ∧
    extraKeyRegexpMatch "a:b" = false ∧
    extraKeyRegexpMatch "valid-key.0/x_y" = true ∧
    strEndsWith ("bad" ++ reservedImpersonationProxySuffix)
      reservedImpersonationProxySuffix = true := by
  refine ⟨?_, by decide, by decide, by decide, by decide, by decide, by decide, by decide⟩
  constructor
  · rintro ⟨e, he⟩
    cases hfind : extra.find? (fun p =>
        !extraKeyRegexpMatch p.1 || strEndsWith p.1 reservedImpersonationProxySuffix) with
    | none =>
      exfalso
      cases himp : ae.impersonatedUser with
      | none =>
        simp only [buildExtra, hfind, himp] at he
        exact Except.noConfusion he
      | some iu =>
        simp only [buildExtra, hfind, himp] at he
        exact Except.noConfusion he
    | some p =>
      have hpred := List.find?_some hfind
      have hmem := List.mem_of_find?_eq_some hfind
      refine ⟨p.1, List.mem_map.mpr ⟨p, hmem, rfl⟩, ?_⟩
      have hpred2 : extraKeyRegexpMatch p.1 = false ∨
          strEndsWith p.1 reservedImpersonationProxySuffix = true := by
        simpa using hpred
      exact hpred2
  · rintro ⟨k, hk, hbad⟩
    obtain ⟨p, hp, hpk⟩ := List.mem_map.mp hk
    have hpred : (!extraKeyRegexpMatch p.1 ||
        strEndsWith p.1 reservedImpersonationProxySuffix) = true := by
      rcases hbad with hbad | hbad
      · rw [hpk, hbad]
        simp
      · rw [hpk, hbad]
        simp
    have hsome : (extra.find? (fun q =>
        !extraKeyRegexpMatch q.1 || strEndsWith q.1 reservedImpersonationProxySuffix)).isSome
          = true :=
      List.find?_isSome.mpr ⟨p, hp, hpred⟩
    obtain ⟨q, hq⟩ := Option.isSome_iff_exists.mp hsome
    by_cases hc : (!extraKeyRegexpMatch q.1) = true
    · exact ⟨"disallowed extra key seen: " ++ q.1, by simp only [buildExtra, hq, if_pos hc]⟩
    · exact ⟨"disallowed extra key with reserved prefix seen: " ++ q.1,
        by simp only [buildExtra, hq, if_neg hc]⟩

/-- Claim C3: when every extras key passes validation, `buildExtra`
returns exactly the input map if the audit event has no impersonated user;
and when an impersonated user is present it returns a fresh map equal to
the input plus exactly one additional entry, keyed by original-user-info
followed by the reserved impersonation-proxy suffix, whose value is the
one-element list holding the JSON encoding of the audit event user. -/
theorem claim_C3_build_extra_shape (extra : List (String × List String)) (ae : AuditEvent)
    (hvalid : ∀ k ∈ extra.map Prod.fst,
      extraKeyRegexpMatch k = true ∧ strEndsWith k reservedImpersonationProxySuffix = false) :
    (ae.impersonatedUser = none → buildExtra extra ae = Except.ok extra) ∧
    (∀ iu, ae.impersonatedUser = some iu →
      buildExtra extra ae =
        Except.ok (extra ++ [(originalUserInfoKey, [jsonMarshalUserInfoV1 ae.user])]) ∧
      (extra ++ [(originalUserInfoKey, [jsonMarshalUserInfoV1 ae.user])]).map Prod.fst =
        extra.map Prod.fst ++ [originalUserInfoKey] ∧
      (∀ k, k ≠ originalUserInfoKey →
        lookupKey (extra ++ [(originalUserInfoKey, [jsonMarshalUserInfoV1 ae.user])]) k =
          lookupKey extra k) ∧
      lookupKey (extra ++ [(originalUserInfoKey, [jsonMarshalUserInfoV1 ae.user])])
          originalUserInfoKey = some [jsonMarshalUserInfoV1 ae.user] ∧
      strEndsWith originalUserInfoKey reservedImpersonationProxySuffix = true) := by
  have hfind : extra.find? (fun p =>
      !extraKeyRegexpMatch p.1 || strEndsWith p.1 reservedImpersonationProxySuffix) = none := by
    rw [List.find?_eq_none]
    intro p hp
    obtain ⟨hmatch, hsuf⟩ := hvalid p.1 (List.mem_map.mpr ⟨p, hp, rfl⟩)
    rw [hmatch, hsuf]
    simp
  constructor
  · intro himp
    simp only [buildExtra, hfind, himp]
  · intro iu himp
    refine ⟨by simp only [buildExtra, hfind, himp, originalUserInfoKey], by simp, ?_, ?_,
      by decide⟩
    · intro k hkne
      rw [lookupKey, lookupKey, List.find?_append]
      have hsingle : ([(originalUserInfoKey, [jsonMarshalUserInfoV1 ae.user])].find?
          (fun p => p.1 == k)) = none := by
        rw [List.find?_eq_none]
        intro p hp
        rw [List.mem_singleton] at hp
        rw [hp]
        exact fun hc => hkne (beq_iff_eq.mp hc).symm
      rw [hsingle, Option.or_none]
    · have hnone : extra.find? (fun p => p.1 == originalUserInfoKey) = none := by
        rw [List.find?_eq_none]
        intro p hp
        obtain ⟨_, hsuf⟩ := hvalid p.1 (List.mem_map.mpr ⟨p, hp, rfl⟩)
        intro hc
        have hpk : p.1 = originalUserInfoKey := beq_iff_eq.mp hc
        rw [hpk] at hsuf
        have : strEndsWith originalUserInfoKey reservedImpersonationProxySuffix = true := by
          decide
        rw [this] at hsuf
        exact Bool.noConfusion hsuf
      rw [lookupKey, List.find?_append, hnone, Option.none_or]
      simp

theorem claim_C3_witness :
    buildExtra [("foo", ["bar"])] ⟨⟨"alice", "", ["devs"], []⟩, none⟩ =
      Except.ok [("foo", ["bar"])] ∧
    buildExtra [("foo", ["bar"])] ⟨⟨"alice", "", ["devs"], []⟩, some ⟨"bob", "", [], []⟩⟩ =
      Except.ok [("foo", ["bar"]),
        (originalUserInfoKey, [jsonMarshalUserInfoV1 ⟨"alice", "", ["devs"], []⟩])] :=
  ⟨(claim_C3_build_extra_shape [("foo", ["bar"])] ⟨⟨"alice", "", ["devs"], []⟩, none⟩
      (by decide)).1 rfl,
   ((claim_C3_build_extra_shape [("foo", ["bar"])]
      ⟨⟨"alice", "", ["devs"], []⟩, some ⟨"bob", "", [], []⟩⟩ (by decide)).2
      ⟨"bob", "", [], []⟩ rfl).1⟩

/-- Claim C2: the token-passthrough path succeeds, returning a bearer-auth
round tripper over the anonymous delegate carrying the stashed token,
exactly when the audit event shows no nested impersonation, the token is
non-empty, the authenticator accepts the token, and the token-review user
deep-equals the audit event user; each failure mode returns the
corresponding error so no outbound request is made. -/
theorem claim_C2_token_passthrough_behavior (d : RoundTripper) (ae : AuditEvent)
    (token : String) (auth : Authenticator) :
    ((∃ rt, tokenPassthroughRoundTripper d ae token auth = Except.ok rt) ↔
      (ae.impersonatedUser = none ∧ token ≠ "" ∧
        ∃ u, auth token = Except.ok (some u) ∧
          userInfoV1DeepEqual ae.user (tokenUserOf u) = true)) ∧
    (∀ rt, tokenPassthroughRoundTripper d ae token auth = Except.ok rt →
      rt = RoundTripper.bearerAuth token d) ∧
    (∀ iu, ae.impersonatedUser = some iu →
      tokenPassthroughRoundTripper d ae token auth =
        Except.error "unable to impersonate uid") ∧
    (ae.impersonatedUser = none → token = "" →
      tokenPassthroughRoundTripper d ae token auth =
        Except.error "no token on request") ∧
    (ae.impersonatedUser = none → token ≠ "" →
      ∀ u, auth token = Except.ok (some u) →
        userInfoV1DeepEqual ae.user (tokenUserOf u) = false →
        tokenPassthroughRoundTripper d ae token auth =
          Except.error "token authenticated as a different user") := by
  cases himp : ae.impersonatedUser with
  | some iu =>
    have hres : tokenPassthroughRoundTripper d ae token auth =
        Except.error "unable to impersonate uid" := by
      simp [tokenPassthroughRoundTripper, himp]
    refine ⟨?_, ?_, fun _ _ => hres, ?_, ?_⟩
    · rw [hres]
      exact iff_of_false (fun ⟨rt, h⟩ => Except.noConfusion h)
        (fun ⟨h, _⟩ => Option.noConfusion h)
    · intro rt h
      rw [hres] at h
      exact Except.noConfusion h
    · intro h
      exact Option.noConfusion h
    · intro h
      exact Option.noConfusion h
  | none =>
    by_cases htok : token = ""
    · have hres : tokenPassthroughRoundTripper d ae token auth =
          Except.error "no token on request" := by
        simp [tokenPassthroughRoundTripper, himp, tokenReview, htok]
      refine ⟨?_, ?_, ?_, fun _ _ => hres, ?_⟩
      · rw [hres]
        exact iff_of_false (fun ⟨rt, h⟩ => Except.noConfusion h)
          (fun ⟨_, hne, _⟩ => hne htok)
      · intro rt h
        rw [hres] at h
        exact Except.noConfusion h
      · intro iu h
        exact Option.noConfusion h
      · intro _ hne
        exact absurd htok hne
    · have hlen : (token.length == 0) = false :=
        beq_eq_false_iff_ne.mpr (fun hc => htok (strLength_eq_zero.mp hc))
      cases hauth : auth token with
      | error e =>
        have hres : tokenPassthroughRoundTripper d ae token auth = Except.error e := by
          simp [tokenPassthroughRoundTripper, himp, tokenReview, hlen, hauth]
        refine ⟨?_, ?_, ?_, ?_, ?_⟩
        · rw [hres]
          exact iff_of_false (fun ⟨rt, h⟩ => Except.noConfusion h)
            (fun ⟨_, _, u, hu, _⟩ => Except.noConfusion hu)
        · intro rt h
          rw [hres] at h
          exact Except.noConfusion h
        · intro iu h
          exact Option.noConfusion h
        · intro _ h
          exact absurd h htok
        · intro _ _ u hu
          exact Except.noConfusion hu
      | ok mu =>
        cases mu with
        | none =>
          have hres : tokenPassthroughRoundTripper d ae token auth =
              Except.error "token failed to authenticate" := by
            simp [tokenPassthroughRoundTripper, himp, tokenReview, hlen, hauth]
          refine ⟨?_, ?_, ?_, ?_, ?_⟩
          · rw [hres]
            refine iff_of_false (fun ⟨rt, h⟩ => Except.noConfusion h) ?_
            rintro ⟨_, _, u, hu, _⟩
            have : (none : Option UserInfo) = some u := by
              injection hu
            exact Option.noConfusion this
          · intro rt h
            rw [hres] at h
            exact Except.noConfusion h
          · intro iu h
            exact Option.noConfusion h
          · intro _ h
            exact absurd h htok
          · intro _ _ u hu
            have : (none : Option UserInfo) = some u := by
              injection hu
            exact Option.noConfusion this
        | some u =>
          cases heqb : userInfoV1DeepEqual ae.user (tokenUserOf u) with
          | true =>
            have hres : tokenPassthroughRoundTripper d ae token auth =
                Except.ok (RoundTripper.bearerAuth token d) := by
              simp [tokenPassthroughRoundTripper, himp, tokenReview, hlen, hauth, heqb]
            refine ⟨?_, ?_, ?_, ?_, ?_⟩
            · rw [hres]
              exact iff_of_true ⟨_, rfl⟩ ⟨rfl, htok, u, rfl, heqb⟩
            · intro rt h
              rw [hres] at h
              injection h with h
              exact h.symm
            · intro iu h
              exact Option.noConfusion h
            · intro _ h
              exact absurd h htok
            · intro _ _ u2 hu2 hne2
              have hu2' : (some u : Option UserInfo) = some u2 := by
                injection hu2
              have : u = u2 := Option.some.inj hu2'
              rw [← this, heqb] at hne2
              exact Bool.noConfusion hne2
          | false =>
            have hres : tokenPassthroughRoundTripper d ae token auth =
                Except.error "token authenticated as a different user" := by
              simp [tokenPassthroughRoundTripper, himp, tokenReview, hlen, hauth, heqb]
            refine ⟨?_, ?_, ?_, ?_, ?_⟩
            · rw [hres]
              refine iff_of_false (fun ⟨rt, h⟩ => Except.noConfusion h) ?_
              rintro ⟨_, _, u2, hu2, heq2⟩
              have hu2' : (some u : Option UserInfo) = some u2 := by
                injection hu2
              have : u = u2 := Option.some.inj hu2'
              rw [← this, heqb] at heq2
              exact Bool.noConfusion heq2
            · intro rt h
              rw [hres] at h
              exact Except.noConfusion h
            · intro iu h
              exact Option.noConfusion h
            · intro _ h
              exact absurd h htok
            · intro _ _ _ _ _
              exact hres

theorem claim_C2_witness :
    tokenPassthroughRoundTripper http2RoundTripperAnonymous
      ⟨⟨"dave", "U2", [], []⟩, some ⟨"eve", "", [], []⟩⟩ "T"
      (fun _ => Except.ok none) = Except.error "unable to impersonate uid" ∧
    RoundTripper.bearerAuth "T" http2RoundTripperAnonymous =
      RoundTripper.bearerAuth "T" http2RoundTripperAnonymous :=
  ⟨(claim_C2_token_passthrough_behavior http2RoundTripperAnonymous
      ⟨⟨"dave", "U2", [], []⟩, some ⟨"eve", "", [], []⟩⟩ "T"
      (fun _ => Except.ok none)).2.2.1 ⟨"eve", "", [], []⟩ rfl,
   (claim_C2_token_passthrough_behavior http2RoundTripperAnonymous
      ⟨⟨"carol", "U1", [], []⟩, none⟩ "T"
      (fun _ => Except.ok (some ⟨"carol", "U1", [], []⟩))).2.1
      (RoundTripper.bearerAuth "T" http2RoundTripperAnonymous) rfl⟩

/-- Claim C5: at proxy entry a request is answered with an internal error
and never forwarded when the Authorization header is still present, an
Impersonate-prefixed header is present, no user info is in the context, or
no audit event is in the context; only a request passing all four guards
proceeds to transport selection and forwarding. -/
theorem claim_C5_proxy_entry_guards (auth : Authenticator) (r : Request) :
    ((headerValues r.headers "Authorization" ≠ [] ∨
        (ensureNoImpersonationHeaders r.headers).isSome = true ∨
        r.ctxUser = none ∨ r.ctxAuditEvent = none) →
      ∃ msg, msg ∈ (["invalid authorization header", "invalid impersonation",
          "invalid user", "invalid audit event"] : List String) ∧
        impersonationProxyHandler auth r = ProxyResult.internalError msg) ∧
    (∀ rt hs, impersonationProxyHandler auth r = ProxyResult.forward rt hs →
      headerValues r.headers "Authorization" = [] ∧
      ensureNoImpersonationHeaders r.headers = none ∧
      r.ctxUser ≠ none ∧ r.ctxAuditEvent ≠ none) := by
  by_cases hA : headerValues r.headers "Authorization" = []
  · have e1 : ((headerValues r.headers "Authorization").length != 0) = false := by
      simp [hA]
    by_cases hI : (ensureNoImpersonationHeaders r.headers).isSome = true
    · have hres : impersonationProxyHandler auth r =
          ProxyResult.internalError "invalid impersonation" := by
        simp [impersonationProxyHandler, e1, hI]
      refine ⟨fun _ => ⟨"invalid impersonation", by simp, hres⟩, ?_⟩
      intro rt hs hfwd
      rw [hres] at hfwd
      exact ProxyResult.noConfusion hfwd
    · have hInone : ensureNoImpersonationHeaders r.headers = none :=
        Option.not_isSome_iff_eq_none.mp hI
      cases hU : r.ctxUser with
      | none =>
        have hres : impersonationProxyHandler auth r =
            ProxyResult.internalError "invalid user" := by
          simp [impersonationProxyHandler, e1, hI, hU]
        refine ⟨fun _ => ⟨"invalid user", by simp, hres⟩, ?_⟩
        intro rt hs hfwd
        rw [hres] at hfwd
        exact ProxyResult.noConfusion hfwd
      | some userInfo =>
        cases hAE : r.ctxAuditEvent with
        | none =>
          have hres : impersonationProxyHandler auth r =
              ProxyResult.internalError "invalid audit event" := by
            simp [impersonationProxyHandler, e1, hI, hU, hAE]
          refine ⟨fun _ => ⟨"invalid audit event", by simp, hres⟩, ?_⟩
          intro rt hs hfwd
          rw [hres] at hfwd
          exact ProxyResult.noConfusion hfwd
        | some ae =>
          constructor
          · intro hdisj
            exfalso
            rcases hdisj with hbad | hbad | hbad | hbad
            · exact hbad hA
            · exact hI hbad
            · exact Option.noConfusion hbad
            · exact Option.noConfusion hbad
          · intro rt hs _
            exact ⟨hA, hInone, fun hc => Option.noConfusion hc,
              fun hc => Option.noConfusion hc⟩
  · have hlen : (headerValues r.headers "Authorization").length ≠ 0 :=
      fun hc => hA (List.length_eq_zero.mp hc)
    have e1 : ((headerValues r.headers "Authorization").length != 0) = true := by
      simp [hlen]
    have hres : impersonationProxyHandler auth r =
        ProxyResult.internalError "invalid authorization header" := by
      simp [impersonationProxyHandler, e1]
    refine ⟨fun _ => ⟨"invalid authorization header", by simp, hres⟩, ?_⟩
    intro rt hs hfwd
    rw [hres] at hfwd
    exact ProxyResult.noConfusion hfwd

theorem claim_C5_witness :
    ∃ msg, msg ∈ (["invalid authorization header", "invalid impersonation",
        "invalid user", "invalid audit event"] : List String) ∧
      impersonationProxyHandler (fun _ => Except.ok none)
          ⟨[("Authorization", ["Bearer x"])], none, none, "", false⟩ =
        ProxyResult.internalError msg :=
  (claim_C5_proxy_entry_guards (fun _ => Except.ok none)
      ⟨[("Authorization", ["Bearer x"])], none, none, "", false⟩).1
    (Or.inl (by decide))

/-- The object-level scrub never changes an already-allocated request
object other than the clone it allocates, and never shrinks the store. -/
theorem deleteKnownImpersonationHeadersOnHeap_frame (s : ReqHeap) (i : Nat)
    (hi : i < s.store.length) :
    (deleteKnownImpersonationHeadersOnHeap s).store.getD i [] = s.store.getD i [] ∧
      s.store.length ≤ (deleteKnownImpersonationHeadersOnHeap s).store.length := by
  rw [deleteKnownImpersonationHeadersOnHeap]
  split
  · obtain ⟨hcur, hlen, hframe⟩ := foldl_delHeaderOnCurrent_frame
      (impersonationHeadersToDelete
        ((cloneCurrentRequest s).store.getD (cloneCurrentRequest s).cur []))
      (cloneCurrentRequest s)
    constructor
    · rw [hframe i (Nat.ne_of_lt hi)]
      exact List.getD_append _ _ _ _ hi
    · rw [hlen]
      have : (cloneCurrentRequest s).store.length = s.store.length + 1 := by
        simp [cloneCurrentRequest]
      rw [this]
      exact Nat.le_succ _
  · exact ⟨rfl, Nat.le_refl _⟩

/-- The object-level X-Forwarded-For removal never changes an
already-allocated request object. -/
theorem removeXForwardedForOnHeap_frame (s : ReqHeap) (i : Nat)
    (hi : i < s.store.length) :
    (removeXForwardedForOnHeap s).store.getD i [] = s.store.getD i [] := by
  rw [removeXForwardedForOnHeap]
  split
  · have h1 := getD_set_ne ((cloneCurrentRequest s).store) ((cloneCurrentRequest s).cur) i
      (fun hc => Nat.ne_of_lt hi hc.symm)
      (headerDel ((cloneCurrentRequest s).store.getD (cloneCurrentRequest s).cur [])
        "X-Forwarded-For") []
    show ((cloneCurrentRequest s).store.set (cloneCurrentRequest s).cur
        (headerDel ((cloneCurrentRequest s).store.getD (cloneCurrentRequest s).cur [])
          "X-Forwarded-For")).getD i [] = s.store.getD i []
    rw [h1]
    exact List.getD_append s.store [s.store.getD s.cur []] [] i hi
  · rfl

/-- Claim C9: the proxy never mutates the inbound request object; both the
impersonation-header scrub and the X-Forwarded-For removal clone first and
delete only on the clone, so the inbound object (heap index 0) still holds
its original header map after both steps. -/
theorem claim_C9_inbound_request_not_mutated (h0 : Header) :
    (removeXForwardedForOnHeap
        (deleteKnownImpersonationHeadersOnHeap ⟨[h0], 0⟩)).store.getD 0 [] = h0 := by
  obtain ⟨hval, hlen⟩ :=
    deleteKnownImpersonationHeadersOnHeap_frame ⟨[h0], 0⟩ 0 Nat.one_pos
  have hlen0 : 0 < (deleteKnownImpersonationHeadersOnHeap ⟨[h0], 0⟩).store.length :=
    Nat.lt_of_lt_of_le Nat.one_pos hlen
  rw [removeXForwardedForOnHeap_frame _ 0 hlen0, hval]
  rfl

theorem charsStartWith_append_self (p z : List Char) :
    charsStartWith (p ++ z) p = true := by
  induction p with
  | nil => cases z <;> rfl
  | cons c cs ih =>
    show (c == c && charsStartWith (cs ++ z) cs) = true
    rw [beq_self_eq_true, ih]
    rfl

theorem charsStartWith_exists_append {a p : List Char}
    (h : charsStartWith a p = true) : ∃ z, a = p ++ z := by
  induction p generalizing a with
  | nil => exact ⟨a, rfl⟩
  | cons q qs ih =>
    cases a with
    | nil => exact Bool.noConfusion h
    | cons c cs =>
      have h' : (c == q && charsStartWith cs qs) = true := h
      rw [Bool.and_eq_true] at h'
      obtain ⟨hcq, hrest⟩ := h'
      obtain ⟨z, hz⟩ := ih hrest
      refine ⟨z, ?_⟩
      rw [beq_iff_eq.mp hcq, hz]
      rfl

theorem canonicalizeChars_append (u : Bool) (xs ys : List Char) :
    canonicalizeChars u (xs ++ ys) =
      canonicalizeChars u xs ++ canonicalizeChars (canonFlagAfter u xs) ys := by
  induction xs generalizing u with
  | nil => rfl
  | cons c cs ih =>
    show (if u then c.toUpper else c.toLower) :: canonicalizeChars (c == '-') (cs ++ ys) = _
    rw [ih]
    rfl

/-- Canonicalising a header key that begins with the extra-header prefix
yields a key that still begins with the extra-header prefix. -/
theorem canonical_keeps_extra_header_pfx {s : String}
    (hs : strStartsWith s ImpersonateUserExtraHeaderPrefix = true) :
    strStartsWith (canonicalMIMEHeaderKey s) ImpersonateUserExtraHeaderPrefix = true := by
  rw [canonicalMIMEHeaderKey]
  split
  · obtain ⟨z, hz⟩ := charsStartWith_exists_append hs
    show charsStartWith (String.mk (canonicalizeChars true s.data)).data
      ImpersonateUserExtraHeaderPrefix.data = true
    rw [hz, canonicalizeChars_append]
    have hfix : canonicalizeChars true ImpersonateUserExtraHeaderPrefix.data =
        ImpersonateUserExtraHeaderPrefix.data := by decide
    rw [hfix]
    exact charsStartWith_append_self _ _
  · exact hs

/-- Claim C10: the scrubber removes only the known impersonation headers;
a header that is not Impersonate-User, not Impersonate-Group and not
prefixed Impersonate-Extra-, yet whose canonical name begins with
Impersonate (such as Impersonate-Uid), survives the scrub, and the proxy
entry then rejects the request with the internal error invalid
impersonation instead of forwarding it. -/
theorem claim_C10_unknown_impersonation_header_rejected
    (h : Header) (k : String) (v : List String)
    (hmem : (k, v) ∈ h)
    (himp : strStartsWith (canonicalMIMEHeaderKey k) "Impersonate" = true)
    (hU : k ≠ ImpersonateUserHeader)
    (hG : k ≠ ImpersonateGroupHeader)
    (hE : strStartsWith k ImpersonateUserExtraHeaderPrefix = false) :
    (k, v) ∈ deleteKnownImpersonationHeaders h ∧
    (∀ (auth : Authenticator) (cu : Option UserInfo) (cae : Option AuditEvent)
        (tok : String) (up : Bool),
      headerValues (deleteKnownImpersonationHeaders h) "Authorization" = [] →
      impersonationProxyHandler auth ⟨deleteKnownImpersonationHeaders h, cu, cae, tok, up⟩ =
        ProxyResult.internalError "invalid impersonation") := by
  have hsurv : (k, v) ∈ deleteKnownImpersonationHeaders h := by
    rw [deleteKnownImpersonationHeaders]
    split
    · rw [foldl_headerDel]
      refine List.mem_filter.mpr ⟨hmem, ?_⟩
      rw [List.all_eq_true]
      intro k2 hk2
      rw [impersonationHeadersToDelete] at hk2
      rcases List.mem_append.mp hk2 with hfix | hextra
      · have hcanU : canonicalMIMEHeaderKey ImpersonateUserHeader = ImpersonateUserHeader := by
          decide
        have hcanG : canonicalMIMEHeaderKey ImpersonateGroupHeader = ImpersonateGroupHeader := by
          decide
        rcases List.mem_cons.mp hfix with rfl | hfix2
        · rw [hcanU]
          exact bne_iff_ne.mpr hU
        · rcases List.mem_cons.mp hfix2 with rfl | hnil
          · rw [hcanG]
            exact bne_iff_ne.mpr hG
          · exact absurd hnil (List.not_mem_nil _)
      · obtain ⟨hk2mem, hk2pfx⟩ := List.mem_filter.mp hextra
        refine bne_iff_ne.mpr ?_
        intro hkc
        have hkc2 : k = canonicalMIMEHeaderKey k2 := hkc
        have : strStartsWith k ImpersonateUserExtraHeaderPrefix = true := by
          rw [hkc2]
          exact canonical_keeps_extra_header_pfx hk2pfx
        rw [this] at hE
        exact Bool.noConfusion hE
    · exact hmem
  refine ⟨hsurv, ?_⟩
  intro auth cu cae tok up hAuthEmpty
  have hens : (ensureNoImpersonationHeaders (deleteKnownImpersonationHeaders h)).isSome
      = true := by
    have hfind : ((deleteKnownImpersonationHeaders h).find? (fun p =>
        strStartsWith (canonicalMIMEHeaderKey p.1) "Impersonate")).isSome = true :=
      List.find?_isSome.mpr ⟨(k, v), hsurv, himp⟩
    obtain ⟨p, hp⟩ := Option.isSome_iff_exists.mp hfind
    rw [ensureNoImpersonationHeaders, hp]
    rfl
  have e1 : ((headerValues (deleteKnownImpersonationHeaders h) "Authorization").length != 0)
      = false := by
    simp [hAuthEmpty]
  simp [impersonationProxyHandler, e1, hens]

theorem claim_C10_witness :
    impersonationProxyHandler (fun _ => Except.ok none)
        ⟨deleteKnownImpersonationHeaders [("Impersonate-Uid", ["1"])],
          some ⟨"alice", "", [], []⟩,
          some ⟨⟨"alice", "", [], []⟩, none⟩, "", false⟩ =
      ProxyResult.internalError "invalid impersonation" :=
  (claim_C10_unknown_impersonation_header_rejected
      [("Impersonate-Uid", ["1"])] "Impersonate-Uid" ["1"]
      (by decide) (by decide) (by decide) (by decide) (by decide)).2
    (fun _ => Except.ok none) (some ⟨"alice", "", [], []⟩)
    (some ⟨⟨"alice", "", [], []⟩, none⟩) "" false (by decide)

end Impersonator
